import Mathlib

/-!
Verification of the control-flow structuring (CFS) engine of `src/analysis/cfs.rs`.

The core algorithm (reducers, remap, driver, loop denaturation) is translated
directly from `cfs.rs`.  The generic containers it consumes (`DirectedGraph`,
`CFG`, `StructureBlock` from the `graph`, `cfg` and `blocks` modules, which are
not part of the provided sources) are modelled from the specification, as noted
in their doc comments.  Machine maps (`HashMap`, `HashSet`) are modelled as
association lists / total functions; recursion that Rust expresses as loops is
expressed with explicit fuel.
-/

set_option maxHeartbeats 1000000

namespace CFSModel

/-- Modelled from the spec: a `BasicBlock` is an opaque identity token with a
stable identifier (`cfg.rs` is not in the sources); we represent it by its
identifier. -/
abbrev BB := Nat

/-- Modelled from the spec: the tag of a structure block
(`blocks.rs` is not in the sources). -/
inductive BlockType where
  | Basic | SelfLooping | Sequence | IfThen | IfThenElse | While | DoWhile
  deriving DecidableEq, Repr

/-- Modelled from the spec: a structure block is either a `Basic` wrapper of a
CFG node or a `Nested` composite carrying a kind, an ordered content list and a
stored depth (`blocks.rs` is not in the sources). -/
inductive StructureBlock where
  | basic (b : BB)
  | nested (bt : BlockType) (content : List StructureBlock) (depth : Nat)
  deriving Repr

mutual
/-- Structural equality test on structure blocks (spec: blocks are value-equal
iff their transitive content is structurally equal, order included). -/
def StructureBlock.beq : StructureBlock → StructureBlock → Bool
  | .basic a, .basic b => a == b
  | .nested t1 c1 d1, .nested t2 c2 d2 =>
    t1 == t2 && d1 == d2 && StructureBlock.beqList c1 c2
  | _, _ => false

/-- Pointwise structural equality of content lists. -/
def StructureBlock.beqList : List StructureBlock → List StructureBlock → Bool
  | [], [] => true
  | x :: xs, y :: ys => StructureBlock.beq x y && StructureBlock.beqList xs ys
  | _, _ => false
end

mutual
theorem StructureBlock.beq_iff :
    ∀ a b : StructureBlock, StructureBlock.beq a b = true ↔ a = b
  | .basic a, .basic b => by
    simp [StructureBlock.beq]
  | .basic a, .nested t c d => by
    simp [StructureBlock.beq]
  | .nested t c d, .basic b => by
    simp [StructureBlock.beq]
  | .nested t1 c1 d1, .nested t2 c2 d2 => by
    simp only [StructureBlock.beq, Bool.and_eq_true, beq_iff_eq,
      StructureBlock.nested.injEq]
    constructor
    · rintro ⟨⟨h1, h2⟩, h3⟩
      exact ⟨h1, (StructureBlock.beqList_iff c1 c2).1 h3, h2⟩
    · rintro ⟨h1, h3, h2⟩
      exact ⟨⟨h1, h2⟩, (StructureBlock.beqList_iff c1 c2).2 h3⟩

theorem StructureBlock.beqList_iff :
    ∀ a b : List StructureBlock, StructureBlock.beqList a b = true ↔ a = b
  | [], [] => by simp [StructureBlock.beqList]
  | [], _ :: _ => by simp [StructureBlock.beqList]
  | _ :: _, [] => by simp [StructureBlock.beqList]
  | x :: xs, y :: ys => by
    simp only [StructureBlock.beqList, Bool.and_eq_true, List.cons.injEq]
    constructor
    · rintro ⟨h1, h2⟩
      exact ⟨(StructureBlock.beq_iff x y).1 h1, (StructureBlock.beqList_iff xs ys).1 h2⟩
    · rintro ⟨h1, h2⟩
      exact ⟨(StructureBlock.beq_iff x y).2 h1, (StructureBlock.beqList_iff xs ys).2 h2⟩
end

instance : DecidableEq StructureBlock := fun a b =>
  decidable_of_iff (StructureBlock.beq a b = true) (StructureBlock.beq_iff a b)

namespace StructureBlock

/-- `StructureBlock::get_depth`: depth 0 for a basic block, the stored depth
for a nested one (modelled from the spec; `blocks.rs` not in the sources). -/
def get_depth : StructureBlock → Nat
  | basic _ => 0
  | nested _ _ d => d

/-- `StructureBlock::children`: empty for a basic block, the content for a
nested one (modelled from the spec). -/
def children : StructureBlock → List StructureBlock
  | basic _ => []
  | nested _ c _ => c

/-- The kind tag of a block. -/
def get_type : StructureBlock → BlockType
  | basic _ => .Basic
  | nested t _ _ => t

end StructureBlock

mutual
/-- Total count of `Basic` leaves of a structure block (the spec's
`size(b)`: "total count of Basic descendants"). -/
def StructureBlock.countBasic : StructureBlock → Nat
  | .basic _ => 1
  | .nested _ c _ => StructureBlock.countBasicList c

/-- Total count of `Basic` leaves of a list of blocks. -/
def StructureBlock.countBasicList : List StructureBlock → Nat
  | [] => 0
  | x :: xs => StructureBlock.countBasic x + StructureBlock.countBasicList xs
end

abbrev SB := StructureBlock

/-- The spec's depth law for a single nested block: the stored depth is one
more than the maximum depth of the children. -/
def depthLaw (b : SB) : Prop :=
  match b with
  | .basic _ => True
  | .nested _ c d => d = 1 + (c.map StructureBlock.get_depth).foldl max 0

instance : DecidablePred depthLaw := fun b => by
  unfold depthLaw
  cases b <;> infer_instance

section GenericGraph

variable {α : Type} [DecidableEq α]

/-- Depth-first postorder walk (modelled from the spec: the `graph.rs` /
`cfg.rs` traversal primitives are not in the sources).  Children are explored
in list order; a node is emitted after its subtree.  Returns the emitted list
together with the visited set, so that the visited set threads through. -/
def dfsPostGo (children : α → List α) : Nat → List α → List α → (List α × List α)
  | 0, _, visited => ([], visited)
  | _ + 1, [], visited => ([], visited)
  | fuel + 1, n :: rest, visited =>
    if n ∈ visited then dfsPostGo children fuel rest visited
    else
      let sub := dfsPostGo children fuel (children n) (n :: visited)
      let restOut := dfsPostGo children fuel rest sub.2
      (sub.1 ++ n :: restOut.1, restOut.2)

/-- Depth-first preorder walk (modelled from the spec), same discipline. -/
def dfsPreGo (children : α → List α) : Nat → List α → List α → (List α × List α)
  | 0, _, visited => ([], visited)
  | _ + 1, [], visited => ([], visited)
  | fuel + 1, n :: rest, visited =>
    if n ∈ visited then dfsPreGo children fuel rest visited
    else
      let sub := dfsPreGo children fuel (children n) (n :: visited)
      let restOut := dfsPreGo children fuel rest sub.2
      (n :: (sub.1 ++ restOut.1), restOut.2)

/-- Set of nodes reachable from `n`, `n` included (modelled from the spec). -/
def dfsVisited (children : α → List α) : Nat → List α → List α → List α
  | 0, _, visited => visited
  | _ + 1, [], visited => visited
  | fuel + 1, n :: rest, visited =>
    if n ∈ visited then dfsVisited children fuel rest visited
    else
      dfsVisited children fuel rest
        (dfsVisited children fuel (children n) (n :: visited))

/-- Nodes reachable from `n` (including `n`). -/
def reachList (children : α → List α) (fuel : Nat) (n : α) : List α :=
  dfsVisited children fuel [n] []

/-- Modelled from the spec: Tarjan-style SCC labelling
(`sccs(graph) → map<node, scc_id>`).  Two nodes share a label iff they are
mutually reachable; the label of a node is the index in `nodes` of the first
node mutually reachable with it, hence always `< nodes.length` for members. -/
def sccIdGen (children : α → List α) (nodes : List α) (fuel : Nat) (n : α) : Nat :=
  nodes.findIdx (fun m =>
    decide (n ∈ reachList children fuel m) && decide (m ∈ reachList children fuel n))

/-- The SCC labelling as an association list over the node list. -/
def sccList (children : α → List α) (nodes : List α) (fuel : Nat) : List (α × Nat) :=
  nodes.map (fun n => (n, sccIdGen children nodes fuel n))

/-- `is_loop` from `cfs.rs`: a node is in a loop iff its SCC has size > 1
(a size-1 SCC, even with a self edge, is not marked). -/
def isLoopMap (sccs : List (α × Nat)) (n : α) : Bool :=
  match sccs.lookup n with
  | none => false
  | some i => 1 < sccs.countP (fun p => p.2 == i)

/-- Stable insertion into a list sorted ascending by `key` (the element goes
after all entries with a key `≤` its own), modelling Rust's stable
`sort_by`. -/
def insertByKey (key : α → Nat) (x : α) : List α → List α
  | [] => [x]
  | y :: ys => if key x < key y then x :: y :: ys else y :: insertByKey key x ys

/-- Stable ascending sort by `key` (models `Vec::sort_by` with a key
comparison, which is stable). -/
def stableSortByKey (key : α → Nat) (l : List α) : List α :=
  l.foldl (fun acc x => insertByKey key x acc) []

end GenericGraph

/-- Rust's `Option<&usize>` ordering used by `denaturate_loop`'s depth
comparison: `None` is smaller than any `Some`. -/
def optGt : Option Nat → Option Nat → Bool
  | some a, some b => b < a
  | some _, none => true
  | none, _ => false

/-- Rank function for `optGt`: `optGt a b` iff `rank a > rank b`. -/
def optRank : Option Nat → Nat
  | none => 0
  | some a => a + 1

theorem optGt_iff_rank (a b : Option Nat) : optGt a b = true ↔ optRank b < optRank a := by
  cases a <;> cases b <;> simp [optGt, optRank]

/-- Modelled from the spec: a CFG is a rooted graph whose nodes carry a
two-slot successor array `[next, cond]` (slot 0 `next`, slot 1 `cond`);
`cfg.rs` is not in the sources.  The edge map is an association list. -/
structure CFG where
  root : Option BB
  edges : List (BB × (Option BB × Option BB))
  deriving DecidableEq, Repr

namespace CFG

/-- Modelled from the spec: `cfg.next(n)`, the slot-0 successor. -/
def next (cfg : CFG) (n : BB) : Option BB :=
  (cfg.edges.lookup n).bind (fun e => e.1)

/-- Modelled from the spec: `cfg.cond(n)`, the slot-1 successor. -/
def cond (cfg : CFG) (n : BB) : Option BB :=
  (cfg.edges.lookup n).bind (fun e => e.2)

/-- Modelled from the spec: `cfg.children(n)`, the non-empty slots in
positional order. -/
def children (cfg : CFG) (n : BB) : List BB :=
  match cfg.edges.lookup n with
  | none => []
  | some (a, b) => a.toList ++ b.toList

/-- The node list, in edge-map order. -/
def nodes (cfg : CFG) : List BB := cfg.edges.map (fun p => p.1)

/-- Generous DFS fuel for this CFG. -/
def fuel (cfg : CFG) : Nat :=
  (cfg.edges.length + 2) * (cfg.edges.length + 2) * 4

/-- Modelled from the spec: `cfg.postorder()`, DFS postorder from the root. -/
def postorder (cfg : CFG) : List BB :=
  match cfg.root with
  | none => []
  | some r => (dfsPostGo cfg.children cfg.fuel [r] []).1

/-- Modelled from the spec: `cfg.predecessors()`, the inverse of the edge
relation, given as the set (list of distinct keys) of predecessors of a
node. -/
def predecessors (cfg : CFG) (n : BB) : List BB :=
  cfg.nodes.filter (fun m => (cfg.children m).contains n)

/-- Modelled from the spec: `cfg.scc()`, the SCC labelling of all nodes. -/
def scc (cfg : CFG) : List (BB × Nat) :=
  sccList cfg.children cfg.nodes cfg.fuel

/-- The SCC label of one node (`sccs.get(node).unwrap()`). -/
def sccIdOf (sccs : List (BB × Nat)) (n : BB) : Nat :=
  (sccs.lookup n).getD 0

/-- `cfg.is_empty()`. -/
def is_empty (cfg : CFG) : Bool := cfg.edges.isEmpty

end CFG

/-- `calculate_depth` from `cfs.rs`: spanning-tree depth by a postorder walk;
each node's depth is `1 + max(child depth)` over already-visited children,
`0` if none. -/
def calculate_depth (cfg : CFG) : List (BB × Nat) :=
  cfg.postorder.foldl
    (fun dm node =>
      let depth := (cfg.children node).foldl
        (fun d child =>
          match dm.lookup child with
          | some cd => max d (cd + 1)
          | none => d) 0
      (node, depth) :: dm) []

/-- One worklist step of `exits_and_targets`: process all children of `n`,
updating stack, visited set, exit list and target list as in the source
(`visit.push` models the Rust stack, so the last processed child is popped
first). -/
def exitsStep (sccs : List (BB × Nat)) (cfg : CFG) (n : BB)
    (st : List BB × List BB × List BB × List BB) : List BB × List BB × List BB × List BB :=
  (cfg.children n).foldl
    (fun (st : List BB × List BB × List BB × List BB) child =>
      let (stack, visited, exits, targets) := st
      if CFG.sccIdOf sccs child ≠ CFG.sccIdOf sccs n then
        (stack, if child ∈ visited then visited else child :: visited,
         exits ++ [n],
         if child ∈ targets then targets else targets ++ [child])
      else if child ∉ visited then
        (child :: stack, child :: visited, exits, targets)
      else
        (stack, visited, exits, targets)) st

/-- Worklist loop of `exits_and_targets` from `cfs.rs`. -/
def exitsGo (sccs : List (BB × Nat)) (cfg : CFG) :
    Nat → List BB → List BB → List BB → List BB → (List BB × List BB)
  | 0, _, _, exits, targets => (exits, targets)
  | _ + 1, [], _, exits, targets => (exits, targets)
  | f + 1, n :: rest, visited, exits, targets =>
    let st := exitsStep sccs cfg n (rest, visited, exits, targets)
    exitsGo sccs cfg f st.1 st.2.1 st.2.2.1 st.2.2.2

/-- `exits_and_targets` from `cfs.rs`: from `node`, traverse intra-SCC edges;
for every edge crossing into a different SCC record the source as an exit
(once per crossing edge) and the destination as a target (deduplicated, in
insertion order). -/
def exits_and_targets (node : BB) (sccs : List (BB × Nat)) (cfg : CFG) :
    List BB × List BB :=
  exitsGo sccs cfg cfg.fuel [node] [node] [] []

/-- Worklist loop of `remove_edges` from `cfs.rs`, accumulating the deferred
`changes`.  Faithful to the source: when a node has a `cond` edge, its `next`
edge is neither checked nor followed (the `else if` chains); removal of a
`cond` edge records `[next, None]`; removal of a `next` edge (only possible
when `cond` is absent) records `[cond, None]`. -/
def removeEdgesGo (targets : List BB) (sccs : List (BB × Nat)) (cfg : CFG) :
    Nat → List BB → List BB → List (BB × (Option BB × Option BB)) →
      List (BB × (Option BB × Option BB))
  | 0, _, _, changes => changes
  | _ + 1, [], _, changes => changes
  | f + 1, n :: rest, visited, changes =>
    match cfg.cond n with
    | some c =>
      if c ∈ targets then
        removeEdgesGo targets sccs cfg f rest visited (changes ++ [(n, (cfg.next n, none))])
      else
        let stack := if c ∉ visited ∧ CFG.sccIdOf sccs c = CFG.sccIdOf sccs n
          then c :: rest else rest
        removeEdgesGo targets sccs cfg f stack
          (if c ∈ visited then visited else c :: visited) changes
    | none =>
      match cfg.next n with
      | some t =>
        if t ∈ targets then
          removeEdgesGo targets sccs cfg f rest visited (changes ++ [(n, (cfg.cond n, none))])
        else
          let stack := if t ∉ visited ∧ CFG.sccIdOf sccs t = CFG.sccIdOf sccs n
            then t :: rest else rest
          removeEdgesGo targets sccs cfg f stack
            (if t ∈ visited then visited else t :: visited) changes
      | none => removeEdgesGo targets sccs cfg f rest visited changes

/-- Apply the deferred edge changes (`*cfg.edges.get_mut(&node).unwrap() = edge`). -/
def applyChanges (cfg : CFG) (changes : List (BB × (Option BB × Option BB))) : CFG :=
  { cfg with
    edges := changes.foldl
      (fun es c => es.map (fun p => if p.1 = c.1 then (c.1, c.2) else p)) cfg.edges }

/-- `remove_edges` from `cfs.rs`: remove all (reached) edges that point to one
of `targets`. -/
def remove_edges (node : BB) (targets : List BB) (sccs : List (BB × Nat))
    (cfg : CFG) : CFG :=
  applyChanges cfg (removeEdgesGo targets sccs cfg cfg.fuel [node] [node] [])

/-- The `targets.iter().reduce(...)` step of `denaturate_loop`: keep the
element whose depth-map entry is greater, preferring the second on ties.
`order` is the traversal order of the hash set, which Rust does not fix. -/
def reduceChoice (dm : List (BB × Nat)) : List BB → Option BB
  | [] => none
  | t :: ts =>
    some (ts.foldl (fun a b => if optGt (dm.lookup a) (dm.lookup b) then a else b) t)

/-- `denaturate_loop` from `cfs.rs`.  `perm` models the iteration order of the
`targets` hash set (Rust iterates it in unspecified order); the rest is a
direct translation: if the loop has more than one exit, first (when there are
two or more targets) keep only the deepest target and remove edges to the
others, then (when a single target remains) sort the exits by predecessor
count and remove edges pointing to the last one. -/
def denaturate_loop (node : BB) (sccs : List (BB × Nat)) (preds : BB → List BB)
    (depth_map : List (BB × Nat)) (perm : List BB → List BB) (cfg : CFG) : CFG :=
  let et := exits_and_targets node sccs cfg
  let exits := et.1
  let targets := et.2
  let il := isLoopMap sccs node
  if 1 < exits.length ∧ il = true then
    let cfg1 :=
      if 2 ≤ targets.length then
        let ordered := perm targets
        match reduceChoice depth_map ordered with
        | none => cfg
        | some correct =>
          remove_edges node (ordered.filter (fun t => t ≠ correct)) sccs cfg
      else cfg
    let et2 := exits_and_targets node sccs cfg1
    let exits2 := stableSortByKey (fun a => (preds a).length) et2.1
    if et2.2.length = 1 then
      match exits2.getLast? with
      | none => cfg1
      | some correct_exit => remove_edges node [correct_exit] sccs cfg1
    else cfg1
  else cfg

/-- `remove_natural_loops` from `cfs.rs`: denaturate once per SCC, iterating
the node list in edge-map order (Rust iterates the hash map in unspecified
order; the model fixes insertion order). -/
def remove_natural_loops (sccs : List (BB × Nat)) (preds : BB → List BB)
    (cfg0 : CFG) : CFG :=
  let dm := calculate_depth cfg0
  (cfg0.nodes.foldl
    (fun (st : CFG × List Nat) node =>
      let (cfg, done) := st
      let i := CFG.sccIdOf sccs node
      if i ∈ done then st
      else (denaturate_loop node sccs preds dm id cfg, i :: done))
    (cfg0, [])).1

instance : Inhabited SB := ⟨StructureBlock.basic 0⟩

/-- Modelled from the spec: `DirectedGraph<StructureBlock>` owns an adjacency
map from block to ordered child list plus an optional root (`graph.rs` is not
in the sources).  The map is an association list in insertion order. -/
structure DirectedGraph where
  root : Option SB
  adjacency : List (SB × List SB)
  deriving DecidableEq, Repr

namespace DirectedGraph

/-- `graph.children(n)` (the `unwrap` of a present key; absent keys give the
empty list). -/
def childrenD (g : DirectedGraph) (n : SB) : List SB :=
  (g.adjacency.lookup n).getD []

/-- The key list, in insertion order. -/
def keys (g : DirectedGraph) : List SB := g.adjacency.map (fun p => p.1)

/-- `graph.len()`. -/
def len (g : DirectedGraph) : Nat := g.adjacency.length

/-- `graph.is_empty()`. -/
def is_empty (g : DirectedGraph) : Bool := g.adjacency.isEmpty

/-- Generous DFS fuel for this graph. -/
def fuel (g : DirectedGraph) : Nat :=
  (g.adjacency.length + 2) * (g.adjacency.length + 2) * 4

/-- Modelled from the spec: `graph.predecessors()`, the set of keys with an
edge to `n`. -/
def predecessors (g : DirectedGraph) (n : SB) : List SB :=
  g.keys.filter (fun m => (g.childrenD m).contains n)

/-- Modelled from the spec: DFS postorder from the root. -/
def postorder (g : DirectedGraph) : List SB :=
  match g.root with
  | none => []
  | some r => (dfsPostGo g.childrenD g.fuel [r] []).1

/-- Modelled from the spec: DFS preorder from the root. -/
def preorder (g : DirectedGraph) : List SB :=
  match g.root with
  | none => []
  | some r => (dfsPreGo g.childrenD g.fuel [r] []).1

/-- Modelled from the spec: the SCC labelling of the structure graph. -/
def scc (g : DirectedGraph) : List (SB × Nat) :=
  sccList g.childrenD g.keys g.fuel

end DirectedGraph

/-- Insertion into the adjacency association list (`HashMap::insert`): replace
the entry when the key is already present, append otherwise. -/
def insertEntry (l : List (SB × List SB)) (k : SB) (v : List SB) :
    List (SB × List SB) :=
  if l.any (fun p => p.1 == k) then
    l.map (fun p => if p.1 = k then (k, v) else p)
  else l ++ [(k, v)]

/-- `deep_copy` from `cfs.rs`: walk the CFG from its root with an explicit
stack, wrapping every reachable node in a `Basic` block and copying its child
list in positional order. -/
def deepCopyGo (cfg : CFG) : Nat → List BB → List BB → List (SB × List SB) →
    List (SB × List SB)
  | 0, _, _, acc => acc
  | _ + 1, [], _, acc => acc
  | f + 1, n :: stk, visited, acc =>
    if n ∈ visited then deepCopyGo cfg f stk visited acc
    else
      let cs := cfg.children n
      deepCopyGo cfg f (cs.reverse ++ stk) (n :: visited)
        (acc ++ [(StructureBlock.basic n, cs.map StructureBlock.basic)])

/-- `deep_copy` from `cfs.rs`. -/
def deep_copy (cfg : CFG) : DirectedGraph :=
  if cfg.is_empty then { root := none, adjacency := [] }
  else
    match cfg.root with
    | none => { root := none, adjacency := [] }
    | some r =>
      { root := some (StructureBlock.basic r),
        adjacency := deepCopyGo cfg cfg.fuel [r] [] [] }

/-- `reduce_self_loop` from `cfs.rs`.  The outer `Option` models the
`unwrap` panic: `none` is the panic of
`children.into_iter().filter(|x| x != &node).last().unwrap()` when both
successor slots point back to `node`; `some r` is the normal result. -/
def reduce_self_loop (node : SB) (g : DirectedGraph) (_ : SB → List SB)
    (_ : SB → Bool) : Option (Option (SB × Option SB)) :=
  match node with
  | StructureBlock.basic _ =>
    let children := g.childrenD node
    if children.length = 2 ∧ node ∈ children then
      match (children.filter (fun x => x ≠ node)).getLast? with
      | none => none
      | some nxt =>
        some (some
          (StructureBlock.nested BlockType.SelfLooping [node] (node.get_depth + 1), some nxt))
    else some none
  | StructureBlock.nested _ _ _ => some none

/-- `construct_and_flatten_sequence` from `cfs.rs`: concatenate the two
blocks, splicing in the content of a side that is itself a `Sequence`; the new
depth is one more than the maximal content depth. -/
def construct_and_flatten_sequence (node nxt : SB) : SB :=
  let flatten := fun (b : SB) =>
    match b with
    | StructureBlock.basic _ => [b]
    | StructureBlock.nested bt c _ => if bt = BlockType.Sequence then c else [b]
  let content := flatten node ++ flatten nxt
  let depth := content.foldl (fun acc val => max val.get_depth acc) 0
  StructureBlock.nested BlockType.Sequence content (depth + 1)

/-- `reduce_sequence` from `cfs.rs`. -/
def reduce_sequence (node : SB) (g : DirectedGraph) (preds : SB → List SB)
    (_ : SB → Bool) : Option (SB × Option SB) :=
  match g.childrenD node with
  | [nxt] =>
    let nextnexts := g.childrenD nxt
    if (preds nxt).length = 1 ∧ nextnexts.length ≤ 1 then
      some (construct_and_flatten_sequence node nxt, nextnexts.getLast?)
    else none
  | _ => none

/-- The loop of `ascend_if_chain` from `cfs.rs`: walk backwards while the
current head has exactly one predecessor of its own which has exactly two
successors, one of them the `cont` block, appending each such ancestor and
accumulating the maximal depth. -/
def ascendGo (g : DirectedGraph) (preds : SB → List SB) :
    Nat → List SB → SB → List SB → SB → Nat → (List SB × Nat)
  | 0, chain, _, _, _, d => (chain, d)
  | f + 1, chain, cont, visited, cur, d =>
    match preds cur with
    | [p] =>
      if p ∈ visited then (chain, d)
      else
        match g.childrenD p with
        | [a, b] =>
          if a = cont ∨ b = cont then
            ascendGo g preds f (chain ++ [p]) cont (p :: visited) p (max d p.get_depth)
          else (chain, d)
        | _ => (chain, d)
    | _ => (chain, d)

/-- `ascend_if_chain` from `cfs.rs` (the chain is kept in reverse order, the
innermost block first). -/
def ascend_if_chain (rev_chain : List SB) (cont : SB) (g : DirectedGraph)
    (preds : SB → List SB) (depth : Nat) : List SB × Nat :=
  ascendGo g preds g.fuel rev_chain cont rev_chain (rev_chain.getLastD default) depth

/-- `reduce_ifthen` from `cfs.rs`. -/
def reduce_ifthen (node : SB) (g : DirectedGraph) (preds : SB → List SB)
    (_ : SB → Bool) : Option (SB × Option SB) :=
  match g.childrenD node with
  | [c0, c1] =>
    let head := node
    -- children.pop() yields the slot-1 child first
    let st :=
      if (g.childrenD c1).length = 1 ∧ (g.childrenD c1).getLastD default = c0 ∧
          (preds c1).length = 1 then
        (c0, c1)  -- swapped: cont := old then, then := old cont
      else
        (c1, c0)
    let cont := st.1
    let then1 := st.2
    if (g.childrenD then1).length = 1 ∧ (g.childrenD then1).getLastD default = cont ∧
        (preds then1).length = 1 then
      let cd := ascend_if_chain [then1, head] cont g preds
        (max then1.get_depth head.get_depth)
      some (StructureBlock.nested BlockType.IfThen cd.1.reverse (cd.2 + 1), some cont)
    else none
  | _ => none

/-- `reduce_ifelse` from `cfs.rs`.  Note the guard: the slot-0 child's
predecessor count is checked; when it exceeds one, the slot-1 child must have
exactly one predecessor (and the two are swapped), otherwise the reducer
fails.  When the slot-0 child already has a single predecessor the slot-1
child's predecessor count is not examined. -/
def reduce_ifelse (node : SB) (g : DirectedGraph) (preds : SB → List SB)
    (_ : SB → Bool) : Option (SB × Option SB) :=
  match g.childrenD node with
  | [t0, e0] =>
    let swapped :=
      if 1 < (preds t0).length then
        if (preds e0).length = 1 then some (e0, t0) else none
      else some (t0, e0)
    match swapped with
    | none => none
    | some (thenb, elseb) =>
      let tc := g.childrenD thenb
      let ec := g.childrenD elseb
      match tc, ec with
      | [tj], [ej] =>
        if tj = ej then
          let cd := ascend_if_chain [elseb, thenb, node] elseb g preds
            (max (max elseb.get_depth thenb.get_depth) node.get_depth)
          some (StructureBlock.nested BlockType.IfThenElse cd.1.reverse (cd.2 + 1), some ej)
        else none
      | _, _ => none
  | _ => none

/-- `find_while` from `cfs.rs`. -/
def find_while (node nxt tail : SB) (g : DirectedGraph) :
    Option (SB × Option SB) :=
  let st := if node ∈ g.childrenD nxt then (tail, nxt) else (nxt, tail)
  let nxt2 := st.1
  let tail2 := st.2
  match g.childrenD tail2 with
  | [t] =>
    if t = node then
      some (StructureBlock.nested BlockType.While [node, tail2]
        (max node.get_depth tail2.get_depth + 1), some nxt2)
    else none
  | _ => none

/-- `find_dowhile` from `cfs.rs`. -/
def find_dowhile (node tail : SB) (tail_children : List SB)
    (g : DirectedGraph) : Option (SB × Option SB) :=
  match tail_children with
  | [tc0, tc1] =>
    if node ≠ tc0 ∧ node ≠ tc1 then
      let pt0 := g.childrenD tc0
      let pt1 := g.childrenD tc1
      let chosen :=
        if pt0.length = 1 ∧ pt0.getLastD default = node then some (tc0, tc1)
        else if pt1.length = 1 ∧ pt1.getLastD default = node then some (tc1, tc0)
        else none
      match chosen with
      | none => none
      | some (post_tail, nxt) =>
        some (StructureBlock.nested BlockType.DoWhile [node, tail, post_tail]
          (max node.get_depth (max tail.get_depth post_tail.get_depth) + 1),
          some nxt)
    else
      let nxt := if tc0 = node then tc1 else tc0
      some (StructureBlock.nested BlockType.DoWhile [node, tail]
        (max node.get_depth tail.get_depth + 1), some nxt)
  | _ => none

/-- `reduce_loop` from `cfs.rs`. -/
def reduce_loop (node : SB) (g : DirectedGraph) (preds : SB → List SB)
    (loops : SB → Bool) : Option (SB × Option SB) :=
  if loops node = true ∧ 1 < (preds node).length then
    match g.childrenD node with
    | [a, b] => find_while node a b g
    | [tail] => find_dowhile node tail (g.childrenD tail) g
    | _ => none
  else none

/-- `remap_nodes` from `cfs.rs`: delete the absorbed blocks (the children of
`new`), redirect every surviving edge to an absorbed block onto `new`, give
`new` the single successor `next` (or none), move the root if it was
absorbed, and purge entries unreachable from the new root. -/
def remap_nodes (new : SB) (next : Option SB) (g : DirectedGraph) :
    DirectedGraph :=
  if g.is_empty then g
  else
    let removeList := new.children
    let base := (g.adjacency.filter (fun p => p.1 ∉ removeList)).map
      (fun p => (p.1, p.2.map (fun c => if c ∈ removeList then new else c)))
    let newAdjacency := insertEntry base new
      (match next with
       | none => []
       | some nu => [nu])
    let newRoot :=
      match g.root with
      | none => some new
      | some r => if r ∈ removeList then some new else some r
    let g1 : DirectedGraph := { root := newRoot, adjacency := newAdjacency }
    let reachables := g1.preorder
    { root := g1.root,
      adjacency := g1.adjacency.filter (fun p => p.1 ∈ reachables) }

/-- Result of trying all five reducers at one node, in source priority order
(self-loop, sequence, if-then, if-then-else, loop).  `none` is the
self-loop reducer's `unwrap` panic. -/
def reduceNode (g : DirectedGraph) (preds : SB → List SB) (loops : SB → Bool)
    (node : SB) : Option (Option (SB × Option SB)) :=
  match reduce_self_loop node g preds loops with
  | none => none
  | some (some r) => some (some r)
  | some none =>
    some (((reduce_sequence node g preds loops).orElse
      (fun _ => reduce_ifthen node g preds loops)).orElse
        (fun _ => (reduce_ifelse node g preds loops).orElse
          (fun _ => reduce_loop node g preds loops)))

/-- Outcome of one driver pass over the postorder list. -/
inductive StepR where
  | panic
  | nothing
  | found (b : SB) (nxt : Option SB)
  deriving DecidableEq, Repr

/-- Scan the postorder list for the first node where a reducer succeeds
(the driver's inner `for` loop). -/
def findRed (g : DirectedGraph) (preds : SB → List SB) (loops : SB → Bool) :
    List SB → StepR
  | [] => .nothing
  | n :: rest =>
    match reduceNode g preds loops n with
    | none => .panic
    | some none => findRed g preds loops rest
    | some (some (b, nxt)) => .found b nxt

/-- One iteration of the driver's outer loop: rebuild predecessor and loop
maps, then scan the postorder for a reduction. -/
def buildStep (g : DirectedGraph) : StepR :=
  let preds := fun n => g.predecessors n
  let loops := fun n => isLoopMap g.scc n
  findRed g preds loops g.postorder

/-- Result of the driver: a panic, fuel exhaustion (the model's stand-in for
an infinite loop), or the final graph. -/
inductive BuildResult where
  | panic
  | fuelOut
  | ok (g : DirectedGraph)
  deriving DecidableEq, Repr

/-- The driver's outer fixed-point loop. -/
def buildLoop : Nat → DirectedGraph → BuildResult
  | 0, _ => .fuelOut
  | f + 1, g =>
    match buildStep g with
    | .panic => .panic
    | .nothing => .ok g
    | .found b nxt => buildLoop f (remap_nodes b nxt g)

/-- `build_cfs` from `cfs.rs`: denaturate the natural loops of a clone of the
CFG, deep-copy it into a structure graph, then reduce to a fixed point. -/
def build_cfs (fuel : Nat) (cfg : CFG) : BuildResult :=
  let nonat := remove_natural_loops cfg.scc (fun n => cfg.predecessors n) cfg
  buildLoop fuel (deep_copy nonat)

/-- The `CFS` struct: the (cloned, never mutated) input CFG and the final
structure graph. -/
structure CFS where
  cfg : CFG
  tree : DirectedGraph
  deriving DecidableEq, Repr

/-- `CFS::new`: run the full pipeline eagerly; `none` models the panic. -/
def CFS.new (fuel : Nat) (cfg : CFG) : Option CFS :=
  match build_cfs fuel cfg with
  | .ok t => some { cfg := cfg, tree := t }
  | _ => none

/-- `CFS::get_tree`: the sole remaining node when the final graph has exactly
one entry, nothing otherwise. -/
def CFS.get_tree (c : CFS) : Option SB :=
  if c.tree.len = 1 then c.tree.root else none

/-- `CFS::get_cfg`: the stored input CFG. -/
def CFS.get_cfg (c : CFS) : CFG := c.cfg

end CFSModel

namespace CFSModel

/-- The self-loop test CFG `0→[1], 1→[2,1], 2→[]`. -/
def cfgSelfLoop : CFG :=
  { root := some 0,
    edges := [(0, (some 1, none)), (1, (some 2, some 1)), (2, (none, none))] }

/-- The pure-sequence seed CFG `0→1→2→3→4`. -/
def cfgSeq5 : CFG :=
  { root := some 0,
    edges := [(0, (some 1, none)), (1, (some 2, none)), (2, (some 3, none)),
      (3, (some 4, none)), (4, (none, none))] }

/-- The if-then seed CFG `0→[1], 1→[2,3], 2→[3], 3→[4], 4→[]`. -/
def cfgIfThen : CFG :=
  { root := some 0,
    edges := [(0, (some 1, none)), (1, (some 2, some 3)), (2, (some 3, none)),
      (3, (some 4, none)), (4, (none, none))] }

/-- The short-circuit if-then seed CFG `0→[1,3], 1→[2,3], 2→[3], 3→[]`. -/
def cfgShortCircuit : CFG :=
  { root := some 0,
    edges := [(0, (some 1, some 3)), (1, (some 2, some 3)), (2, (some 3, none)),
      (3, (none, none))] }

/-- The while seed CFG `0→[1], 1→[2,3], 2→[1], 3→[]`. -/
def cfgWhileb : CFG :=
  { root := some 0,
    edges := [(0, (some 1, none)), (1, (some 2, some 3)), (2, (some 1, none)),
      (3, (none, none))] }

/-- The repo's `nat_loop_return_while` test CFG. -/
def cfgReturnWhile : CFG :=
  { root := some 0,
    edges := [(0, (some 1, none)), (1, (some 2, some 6)), (2, (some 3, some 6)),
      (3, (some 6, some 4)), (4, (some 5, some 8)), (5, (some 8, some 1)),
      (6, (some 7, none)), (7, (some 8, none)), (8, (none, none))] }

/-- A CFG whose loop denaturation disconnects part of the graph:
`0→[1], 1→[2,6], 2→[1,7], 6→[], 7→[8], 8→[]`. -/
def cfgOrphan : CFG :=
  { root := some 0,
    edges := [(0, (some 1, none)), (1, (some 2, some 6)), (2, (some 1, some 7)),
      (6, (none, none)), (7, (some 8, none)), (8, (none, none))] }

/-- A two-target loop with equal-depth targets:
`0→[1], 1→[2,6], 2→[1,7], 6→[], 7→[]`. -/
def cfgTie : CFG :=
  { root := some 0,
    edges := [(0, (some 1, none)), (1, (some 2, some 6)), (2, (some 1, some 7)),
      (6, (none, none)), (7, (none, none))] }

/-- A node whose next edge points at a to-be-removed target while its cond
edge survives: `0→[9,1]` with next `9`, cond `1`. -/
def cfgCondSurvives : CFG :=
  { root := some 0,
    edges := [(0, (some 9, some 1)), (1, (none, none)), (9, (none, none))] }

/-- A basic block with both successor slots pointing back to itself:
`0→[1], 1→[1,1]`. -/
def cfgDoubleSelf : CFG :=
  { root := some 0,
    edges := [(0, (some 1, none)), (1, (some 1, some 1))] }

/-- The empty CFG. -/
def cfgEmpty : CFG := { root := none, edges := [] }

end CFSModel


namespace CFSModel

/-- The structure graph the driver starts from on `cfgSelfLoop`. -/
def gSelfLoop : DirectedGraph :=
  deep_copy (remove_natural_loops cfgSelfLoop.scc
    (fun n => cfgSelfLoop.predecessors n) cfgSelfLoop)

/-- A structure graph where the slot-1 successor of the root has two
predecessors: `0→[1,2], 1→[3], 2→[3], 3→[], 4→[2]`. -/
def gTwoPreds : DirectedGraph :=
  { root := some (StructureBlock.basic 0),
    adjacency := [
      (StructureBlock.basic 0, [StructureBlock.basic 1, StructureBlock.basic 2]),
      (StructureBlock.basic 1, [StructureBlock.basic 3]),
      (StructureBlock.basic 2, [StructureBlock.basic 3]),
      (StructureBlock.basic 3, []),
      (StructureBlock.basic 4, [StructureBlock.basic 2])] }

end CFSModel


namespace CFSModel

/-- The `SelfLooping` block produced by the first driver step on
`cfgSelfLoop`. -/
def slBlock : SB := StructureBlock.nested BlockType.SelfLooping [StructureBlock.basic 1] 1

/-- C1, counterexample.  On the graph state the driver reaches for the CFG
`0→[1], 1→[2,1], 2→[]` (the initial deep copy), the very first driver step is
a successful self-loop reduction at node 1, and `remap_nodes` leaves the
adjacency map with the same number of entries (3), not strictly fewer. -/
theorem C1_counterexample :
    buildStep gSelfLoop = .found slBlock (some (StructureBlock.basic 2)) ∧
    gSelfLoop.len = 3 ∧
    (remap_nodes slBlock (some (StructureBlock.basic 2)) gSelfLoop).len = 3 := by
  decide

theorem insertEntry_length (l : List (SB × List SB)) (k : SB) (v : List SB) :
    (insertEntry l k v).length ≤ l.length + 1 := by
  unfold insertEntry
  split
  · simp
  · simp

/-- C1, amended.  `remap_nodes` never increases the number of adjacency
entries when at least one child of the new block is an adjacency key, and
strictly decreases it when at least two are (each reducer other than the
self-loop one absorbs at least two keys; the self-loop reducer absorbs
exactly one, which is why its step can leave the size unchanged). -/
theorem filterNot_length_eq (l : List (SB × List SB)) (s : List SB) :
    (l.filter (fun p => decide (p.1 ∉ s))).length =
      l.length - l.countP (fun p => decide (p.1 ∈ s)) := by
  have h1 := List.length_eq_countP_add_countP
    (p := fun p : SB × List SB => decide (p.1 ∈ s)) (l := l)
  have h2 : l.countP (fun p => decide (¬(decide (p.1 ∈ s)) = true)) =
      l.countP (fun p => decide (p.1 ∉ s)) := by
    apply List.countP_congr
    intro a _
    simp
  have h3 : (l.filter (fun p => decide (p.1 ∉ s))).length =
      l.countP (fun p => decide (p.1 ∉ s)) :=
    (List.countP_eq_length_filter _ _).symm
  omega

theorem C1_remap_size (new : SB) (nxt : Option SB) (g : DirectedGraph) :
    (1 ≤ g.adjacency.countP (fun p => decide (p.1 ∈ new.children)) →
      (remap_nodes new nxt g).len ≤ g.len) ∧
    (2 ≤ g.adjacency.countP (fun p => decide (p.1 ∈ new.children)) →
      (remap_nodes new nxt g).len < g.len) := by
  have hkle : g.adjacency.countP (fun p => decide (p.1 ∈ new.children)) ≤
      g.adjacency.length := List.countP_le_length _
  by_cases hemp : g.is_empty = true
  · have h0 : g.adjacency.length = 0 := by
      simpa [DirectedGraph.is_empty, List.isEmpty_iff_length_eq_zero] using hemp
    have hco : (remap_nodes new nxt g) = g := by
      unfold remap_nodes
      rw [if_pos hemp]
    rw [hco]
    exact ⟨fun _ => le_refl _, fun h2 => absurd h2 (by omega)⟩
  · have key : (remap_nodes new nxt g).len ≤
        (g.adjacency.length - g.adjacency.countP (fun p => decide (p.1 ∈ new.children))) + 1 := by
      simp only [remap_nodes, if_neg hemp, DirectedGraph.len]
      refine le_trans (List.length_filter_le _ _) ?_
      refine le_trans (insertEntry_length _ _ _) ?_
      rw [List.length_map, filterNot_length_eq]
    have hlen : g.len = g.adjacency.length := rfl
    constructor
    · intro h1; omega
    · intro h2; omega

/-- A two-node chain graph used to instantiate the remap size bound. -/
def gChain2 : DirectedGraph :=
  { root := some (StructureBlock.basic 0),
    adjacency := [(StructureBlock.basic 0, [StructureBlock.basic 1]),
      (StructureBlock.basic 1, [])] }

/-- Witness for the amended C1 statement: absorbing the two keys of a
two-node chain into one `Sequence` strictly decreases the entry count. -/
theorem C1_remap_size_witness :
    2 ≤ gChain2.adjacency.countP (fun p => decide (p.1 ∈
        (StructureBlock.nested BlockType.Sequence
          [StructureBlock.basic 0, StructureBlock.basic 1] 1).children)) ∧
    (remap_nodes (StructureBlock.nested BlockType.Sequence
      [StructureBlock.basic 0, StructureBlock.basic 1] 1) none gChain2).len <
      gChain2.len :=
  ⟨by decide,
    (C1_remap_size (StructureBlock.nested BlockType.Sequence
      [StructureBlock.basic 0, StructureBlock.basic 1] 1) none gChain2).2 (by decide)⟩

end CFSModel

namespace CFSModel

/-- C2, counterexample.  On `gTwoPreds` the slot-1 successor `2` of node `0`
has two predecessors (`0` and `4`), yet `reduce_ifelse` still produces an
`IfThenElse` block, because the guard only inspects the slot-0 successor's
predecessor count when that count is 1. -/
theorem C2_counterexample :
    reduce_ifelse (StructureBlock.basic 0) gTwoPreds
      (fun n => gTwoPreds.predecessors n) (fun _ => false) =
      some (StructureBlock.nested BlockType.IfThenElse
        [StructureBlock.basic 0, StructureBlock.basic 1, StructureBlock.basic 2] 1,
        some (StructureBlock.basic 3)) ∧
    (gTwoPreds.predecessors (StructureBlock.basic 2)).length = 2 ∧
    (StructureBlock.nested BlockType.IfThenElse
      [StructureBlock.basic 0, StructureBlock.basic 1, StructureBlock.basic 2] 1).get_type
      = BlockType.IfThenElse := by
  decide

/-- C2, amended.  `reduce_ifelse` succeeds only when the slot-0 successor has
at most one predecessor, or else the slot-1 successor has exactly one (in
which case the branches are swapped); the slot-1 successor's predecessor
count is otherwise not constrained. -/
theorem C2_guard (node c0 c1 : SB) (g : DirectedGraph) (pr : SB → List SB)
    (lp : SB → Bool) (r : SB × Option SB)
    (hc : g.childrenD node = [c0, c1])
    (hr : reduce_ifelse node g pr lp = some r) :
    (pr c0).length ≤ 1 ∨ (pr c1).length = 1 := by
  unfold reduce_ifelse at hr
  rw [hc] at hr
  by_cases h0 : 1 < (pr c0).length
  · by_cases h1 : (pr c1).length = 1
    · exact Or.inr h1
    · simp only [if_pos h0, if_neg h1] at hr
      exact absurd hr (by simp)
  · exact Or.inl (by omega)

/-- Witness for the amended C2 statement at the concrete graph. -/
theorem C2_guard_witness :
    (gTwoPreds.predecessors (StructureBlock.basic 1)).length ≤ 1 ∨
    (gTwoPreds.predecessors (StructureBlock.basic 2)).length = 1 :=
  C2_guard (StructureBlock.basic 0) (StructureBlock.basic 1) (StructureBlock.basic 2)
    gTwoPreds (fun n => gTwoPreds.predecessors n) (fun _ => false)
    (StructureBlock.nested BlockType.IfThenElse
      [StructureBlock.basic 0, StructureBlock.basic 1, StructureBlock.basic 2] 1,
      some (StructureBlock.basic 3))
    (by decide) (by decide)

/-- The number of adjacency entries of a build result (0 unless `ok`). -/
def BuildResult.size : BuildResult → Nat
  | .ok g => g.len
  | _ => 0

/-- C3.  The code diverges from the documented edge-removal rule: `0` is the
start node of the removal (hence visited) with cond edge to `1` (surviving)
and next edge to the to-be-removed target `9`, yet `remove_edges` returns the
CFG unchanged instead of collapsing the edges to `[cond, none]`, because the
`else if` chaining never examines the next slot of a node that has a cond
edge.  As a consequence the pipeline leaves the repo's own
`nat_loop_return_while` test CFG irreducible (8 blocks remain and `get_tree`
yields nothing), while that test expects a five-element `Sequence` whose
second child is a `While`. -/
theorem C3_code_divergence :
    remove_edges 0 [9] cfgCondSurvives.scc cfgCondSurvives = cfgCondSurvives ∧
    cfgCondSurvives.cond 0 = some 1 ∧
    cfgCondSurvives.next 0 = some 9 ∧
    (1 ∈ ([9] : List BB)) = False ∧
    BuildResult.size (build_cfs 60 cfgReturnWhile) = 8 ∧
    (CFS.new 60 cfgReturnWhile).map CFS.get_tree = some none := by
  refine ⟨by decide, by decide, by decide, by decide, ?_, ?_⟩
  · decide
  · decide

end CFSModel

namespace CFSModel

/-- C5.  `get_tree` yields a block exactly when the final structure graph has
exactly one entry, and that block is the graph's root; an empty input CFG
builds an empty structure graph on which `get_tree` yields nothing. -/
theorem C5_get_tree :
    (∀ (c : CFS) (b : SB),
      CFS.get_tree c = some b ↔ (c.tree.len = 1 ∧ c.tree.root = some b)) ∧
    build_cfs 1 cfgEmpty = .ok { root := none, adjacency := [] } ∧
    CFS.new 1 cfgEmpty = some { cfg := cfgEmpty, tree := { root := none, adjacency := [] } } ∧
    (CFS.new 1 cfgEmpty).map CFS.get_tree = some none := by
  refine ⟨?_, by decide, by decide, by decide⟩
  intro c b
  unfold CFS.get_tree
  by_cases h : c.tree.len = 1
  · simp [h]
  · simp [h]

/-- Witness for the universally quantified part of C5 at a concrete value. -/
theorem C5_get_tree_witness :
    CFS.get_tree { cfg := cfgEmpty, tree := gChain2 } = some (StructureBlock.basic 0) ↔
      (gChain2.len = 1 ∧ gChain2.root = some (StructureBlock.basic 0)) :=
  C5_get_tree.1 { cfg := cfgEmpty, tree := gChain2 } (StructureBlock.basic 0)

/-- C6, counterexample.  `denaturate_loop` run twice on the same CFG, SCC
labelling, predecessor map and depth map, but with the two possible traversal
orders of the (unordered) target set `{6, 7}` whose spanning-tree depths are
equal, produces two different CFGs. -/
theorem C6_counterexample :
    (calculate_depth cfgTie).lookup 6 = some 0 ∧
    (calculate_depth cfgTie).lookup 7 = some 0 ∧
    id (exits_and_targets 1 cfgTie.scc cfgTie).2 = [6, 7] ∧
    List.reverse (exits_and_targets 1 cfgTie.scc cfgTie).2 = [7, 6] ∧
    denaturate_loop 1 cfgTie.scc (fun n => cfgTie.predecessors n)
        (calculate_depth cfgTie) id cfgTie ≠
      denaturate_loop 1 cfgTie.scc (fun n => cfgTie.predecessors n)
        (calculate_depth cfgTie) List.reverse cfgTie := by
  decide

theorem foldlChoice_bound (dm : List (BB × Nat)) :
    ∀ (ts : List BB) (a : BB),
      ((ts.foldl (fun a b => if optGt (dm.lookup a) (dm.lookup b) then a else b) a) = a ∨
        (ts.foldl (fun a b => if optGt (dm.lookup a) (dm.lookup b) then a else b) a) ∈ ts) ∧
      optRank (dm.lookup a) ≤ optRank (dm.lookup
        (ts.foldl (fun a b => if optGt (dm.lookup a) (dm.lookup b) then a else b) a)) ∧
      ∀ x ∈ ts, optRank (dm.lookup x) ≤ optRank (dm.lookup
        (ts.foldl (fun a b => if optGt (dm.lookup a) (dm.lookup b) then a else b) a))
  | [], a => by simp
  | b :: ts, a => by
    simp only [List.foldl_cons]
    set a' := if optGt (dm.lookup a) (dm.lookup b) then a else b with ha'
    have step : (a' = a ∨ a' = b) ∧
        optRank (dm.lookup a) ≤ optRank (dm.lookup a') ∧
        optRank (dm.lookup b) ≤ optRank (dm.lookup a') := by
      rw [ha']
      by_cases hgt : optGt (dm.lookup a) (dm.lookup b) = true
      · have := (optGt_iff_rank (dm.lookup a) (dm.lookup b)).1 hgt
        rw [if_pos hgt]
        exact ⟨Or.inl rfl, le_refl _, by omega⟩
      · have : ¬ optRank (dm.lookup b) < optRank (dm.lookup a) := by
          intro hlt
          exact hgt ((optGt_iff_rank _ _).2 hlt)
        rw [if_neg hgt]
        exact ⟨Or.inr rfl, by omega, le_refl _⟩
    obtain ⟨hmem, hrank, hall⟩ := foldlChoice_bound dm ts a'
    refine ⟨?_, le_trans step.2.1 hrank, ?_⟩
    · rcases hmem with h | h
      · rcases step.1 with h2 | h2
        · rw [h, h2]; exact Or.inl rfl
        · rw [h, h2]; exact Or.inr (List.mem_cons_self b ts)
      · exact Or.inr (List.mem_cons_of_mem b h)
    · intro x hx
      rcases List.mem_cons.1 hx with h | h
      · rw [h]; exact le_trans step.2.2 hrank
      · exact hall x h

/-- C6, amended.  The canonical target chosen by the `reduce` fold is always
one of the targets and always has maximal spanning-tree depth among them
(under the `None < Some` order on depth-map entries); which maximal-depth
target is chosen, however, depends on the traversal order of the target set
(on ties the later element wins), so determinism holds only relative to a
fixed traversal order. -/
theorem C6_choice_max (dm : List (BB × Nat)) (l : List BB) (c : BB)
    (h : reduceChoice dm l = some c) :
    c ∈ l ∧ ∀ x ∈ l, optGt (dm.lookup x) (dm.lookup c) = false := by
  match l, h with
  | t :: ts, h =>
    unfold reduceChoice at h
    have hc : ts.foldl (fun a b => if optGt (dm.lookup a) (dm.lookup b) then a else b) t = c :=
      by injection h
    obtain ⟨hmem, hrank, hall⟩ := foldlChoice_bound dm ts t
    rw [hc] at hmem hrank hall
    constructor
    · rcases hmem with h2 | h2
      · rw [h2]; exact List.mem_cons_self t ts
      · exact List.mem_cons_of_mem t h2
    · intro x hx
      have hle : optRank (dm.lookup x) ≤ optRank (dm.lookup c) := by
        rcases List.mem_cons.1 hx with h2 | h2
        · rw [h2]; exact hrank
        · exact hall x h2
      by_contra hgt
      have hgt' : optGt (dm.lookup x) (dm.lookup c) = true := by
        cases hb : optGt (dm.lookup x) (dm.lookup c)
        · exact absurd hb hgt
        · rfl
      have := (optGt_iff_rank _ _).1 hgt'
      omega

/-- Witness for the amended C6 statement on the tie example. -/
theorem C6_choice_max_witness :
    7 ∈ [(6 : BB), 7] ∧
      ∀ x ∈ [(6 : BB), 7],
        optGt ((calculate_depth cfgTie).lookup x)
          ((calculate_depth cfgTie).lookup 7) = false :=
  C6_choice_max (calculate_depth cfgTie) [6, 7] 7 (by decide)

end CFSModel

namespace CFSModel

/-- The tree the pipeline builds (when it completes to a single node). -/
def finalTree (fuel : Nat) (cfg : CFG) : Option SB :=
  (CFS.new fuel cfg).bind CFS.get_tree

/-- C7, counterexample.  On the CFG `0→[1], 1→[2,6], 2→[1,7], 6→[], 7→[8],
8→[]` (6 nodes), loop denaturation cuts the edges `1→6` and then `1→2`,
disconnecting nodes `2, 6, 7, 8`; reduction then completes to a single
`Sequence` with only 2 Basic leaves, so the leaf count of the returned tree
is not the input CFG's node count. -/
theorem C7_counterexample :
    finalTree 50 cfgOrphan =
      some (StructureBlock.nested BlockType.Sequence
        [StructureBlock.basic 0, StructureBlock.basic 1] 1) ∧
    (StructureBlock.nested BlockType.Sequence
      [StructureBlock.basic 0, StructureBlock.basic 1] 1).countBasic = 2 ∧
    cfgOrphan.edges.length = 6 := by
  refine ⟨by decide, by decide, by decide⟩

/-- C7, amended.  Size conservation holds relative to the structure graph the
driver actually starts from: the Basic leaves of the final tree count exactly
the nodes deep-copied after loop denaturation.  On CFGs whose denaturation
disconnects nodes this is strictly below the CFG's node count (the
counterexample keeps 2 of 6 nodes); on the seed scenarios, where denaturation
removes nothing, the leaf count equals the CFG's node count. -/
theorem C7_amended :
    (finalTree 50 cfgOrphan).map StructureBlock.countBasic =
      some (deep_copy (remove_natural_loops cfgOrphan.scc
        (fun n => cfgOrphan.predecessors n) cfgOrphan)).len ∧
    (deep_copy (remove_natural_loops cfgOrphan.scc
      (fun n => cfgOrphan.predecessors n) cfgOrphan)).len = 2 ∧
    2 < cfgOrphan.edges.length ∧
    (finalTree 50 cfgSeq5).map StructureBlock.countBasic = some cfgSeq5.edges.length ∧
    (finalTree 50 cfgSelfLoop).map StructureBlock.countBasic = some cfgSelfLoop.edges.length ∧
    (finalTree 50 cfgIfThen).map StructureBlock.countBasic = some cfgIfThen.edges.length ∧
    (finalTree 50 cfgShortCircuit).map StructureBlock.countBasic =
      some cfgShortCircuit.edges.length ∧
    (finalTree 50 cfgWhileb).map StructureBlock.countBasic = some cfgWhileb.edges.length := by
  refine ⟨by decide, by decide, by decide, by decide, by decide, by decide, by decide, by decide⟩

/-- C9.  The analysis never touches the stored input CFG: whenever `CFS::new`
succeeds, `get_cfg` returns exactly the CFG it was given (the pipeline works
on a denatured clone). -/
theorem C9_cfg_preserved (fuel : Nat) (cfg : CFG) (c : CFS)
    (h : CFS.new fuel cfg = some c) : CFS.get_cfg c = cfg := by
  unfold CFS.new at h
  cases hb : build_cfs fuel cfg with
  | ok t =>
    rw [hb] at h
    cases h
    rfl
  | panic => rw [hb] at h; cases h
  | fuelOut => rw [hb] at h; cases h

/-- Witness for C9 on the empty CFG. -/
theorem C9_cfg_preserved_witness :
    CFS.get_cfg ⟨cfgEmpty, ⟨none, []⟩⟩ = cfgEmpty :=
  C9_cfg_preserved 1 cfgEmpty ⟨cfgEmpty, ⟨none, []⟩⟩ (by decide)

end CFSModel

namespace CFSModel

/-- C10.  When both successor slots of a Basic node point back to the node
itself, `reduce_self_loop` hits the panicking `unwrap` (the filter over the
other successor is empty), modelled by the `none` result; consequently the
whole pipeline on the CFG `0→[1], 1→[1,1]` panics and `CFS::new` produces no
value at all, neither a tree nor a "no structure" answer. -/
theorem C10_self_loop_panic :
    (∀ (b : BB) (g : DirectedGraph) (pr : SB → List SB) (lp : SB → Bool),
      g.childrenD (StructureBlock.basic b) = [StructureBlock.basic b, StructureBlock.basic b] →
      reduce_self_loop (StructureBlock.basic b) g pr lp = none) ∧
    build_cfs 50 cfgDoubleSelf = .panic ∧
    CFS.new 50 cfgDoubleSelf = none := by
  refine ⟨?_, by decide, by decide⟩
  intro b g pr lp hc
  simp [reduce_self_loop, hc]

/-- Witness for the universally quantified part of C10. -/
theorem C10_self_loop_panic_witness :
    reduce_self_loop (StructureBlock.basic 1)
      ⟨some (StructureBlock.basic 1),
        [(StructureBlock.basic 1, [StructureBlock.basic 1, StructureBlock.basic 1])]⟩
      (fun _ => []) (fun _ => false) = none :=
  C10_self_loop_panic.1 1
    ⟨some (StructureBlock.basic 1),
      [(StructureBlock.basic 1, [StructureBlock.basic 1, StructureBlock.basic 1])]⟩
    (fun _ => []) (fun _ => false) (by decide)

end CFSModel

namespace CFSModel

/-- Maximum depth of a list of blocks (0 when empty), as used by the spec's
depth law. -/
def maxDepth (l : List SB) : Nat := (l.map StructureBlock.get_depth).foldl max 0

theorem foldl_max_shift : ∀ (l : List Nat) (a : Nat), l.foldl max a = max a (l.foldl max 0)
  | [], a => by simp
  | x :: xs, a => by
    simp only [List.foldl_cons]
    rw [foldl_max_shift xs (max a x), foldl_max_shift xs (max 0 x)]
    omega

theorem maxDepth_cons (x : SB) (l : List SB) :
    maxDepth (x :: l) = max x.get_depth (maxDepth l) := by
  simp only [maxDepth, List.map_cons, List.foldl_cons]
  rw [foldl_max_shift]
  omega

theorem maxDepth_append (l1 l2 : List SB) :
    maxDepth (l1 ++ l2) = max (maxDepth l1) (maxDepth l2) := by
  simp only [maxDepth, List.map_append, List.foldl_append]
  rw [foldl_max_shift]

theorem maxDepth_reverse : ∀ l : List SB, maxDepth l.reverse = maxDepth l
  | [] => rfl
  | x :: xs => by
    rw [List.reverse_cons, maxDepth_append, maxDepth_reverse xs]
    have h1 : maxDepth [x] = x.get_depth := by simp [maxDepth]
    have h2 : maxDepth (x :: xs) = max x.get_depth (maxDepth xs) := maxDepth_cons x xs
    omega

theorem foldl_depth_eq : ∀ (l : List SB) (a : Nat),
    l.foldl (fun acc val => max val.get_depth acc) a =
      (l.map StructureBlock.get_depth).foldl max a
  | [], _ => rfl
  | x :: xs, a => by
    simp only [List.foldl_cons, List.map_cons]
    rw [foldl_depth_eq xs (max x.get_depth a), Nat.max_comm]

/-- The running depth accumulated by `ascend_if_chain` stays the maximum
depth of the chain. -/
theorem ascendGo_depth (g : DirectedGraph) (pr : SB → List SB) :
    ∀ (fuel : Nat) (chain : List SB) (cont : SB) (visited : List SB) (cur : SB)
      (d : Nat), d = maxDepth chain →
      (ascendGo g pr fuel chain cont visited cur d).2 =
        maxDepth (ascendGo g pr fuel chain cont visited cur d).1
  | 0, chain, cont, visited, cur, d, h => h
  | fuel + 1, chain, cont, visited, cur, d, h => by
    unfold ascendGo
    split
    · rename_i p hpr
      split
      · exact h
      · split
        · rename_i a b hcs
          split
          · apply ascendGo_depth g pr fuel
            rw [maxDepth_append, h]
            have : maxDepth [p] = p.get_depth := by simp [maxDepth]
            omega
          · exact h
        · exact h
    · exact h

/-- Depth law for any block assembled from an `ascend_if_chain` result with a
correctly initialised running depth. -/
theorem ascend_depthLaw (g : DirectedGraph) (pr : SB → List SB) (bt : BlockType)
    (chain0 : List SB) (cont : SB) (d0 : Nat) (h : d0 = maxDepth chain0) :
    depthLaw (StructureBlock.nested bt
      (ascend_if_chain chain0 cont g pr d0).1.reverse
      ((ascend_if_chain chain0 cont g pr d0).2 + 1)) := by
  have hd := ascendGo_depth g pr g.fuel chain0 cont chain0 (chain0.getLastD default) d0 h
  show _ = 1 + maxDepth _
  rw [maxDepth_reverse]
  unfold ascend_if_chain
  omega

end CFSModel

namespace CFSModel

theorem pair_depthLaw (bt : BlockType) (x y : SB) :
    depthLaw (StructureBlock.nested bt [x, y] (max x.get_depth y.get_depth + 1)) := by
  show _ = 1 + maxDepth [x, y]
  have h1 := maxDepth_cons x [y]
  have h2 := maxDepth_cons y ([] : List SB)
  have h0 : maxDepth ([] : List SB) = 0 := rfl
  omega

theorem single_depthLaw (bt : BlockType) (x : SB) :
    depthLaw (StructureBlock.nested bt [x] (x.get_depth + 1)) := by
  show _ = 1 + maxDepth [x]
  have h1 := maxDepth_cons x ([] : List SB)
  have h0 : maxDepth ([] : List SB) = 0 := rfl
  omega

theorem triple_depthLaw (bt : BlockType) (x y z : SB) :
    depthLaw (StructureBlock.nested bt [x, y, z]
      (max x.get_depth (max y.get_depth z.get_depth) + 1)) := by
  show _ = 1 + maxDepth [x, y, z]
  have h1 := maxDepth_cons x [y, z]
  have h2 := maxDepth_cons y [z]
  have h3 := maxDepth_cons z ([] : List SB)
  have h0 : maxDepth ([] : List SB) = 0 := rfl
  omega

theorem flatten_depthLaw (a b : SB) :
    depthLaw (construct_and_flatten_sequence a b) := by
  unfold construct_and_flatten_sequence
  show _ = 1 + maxDepth _
  rw [foldl_depth_eq]
  exact Nat.add_comm _ 1

theorem find_while_depthLaw (node a b : SB) (g : DirectedGraph)
    (r : SB × Option SB) (h : find_while node a b g = some r) : depthLaw r.1 := by
  unfold find_while at h
  by_cases hsw : node ∈ g.childrenD a
  · rw [if_pos hsw] at h
    dsimp only at h
    split at h
    · split at h
      · injection h with h1
        rw [← h1]
        exact pair_depthLaw _ _ _
      · exact absurd h (by simp)
    · exact absurd h (by simp)
  · rw [if_neg hsw] at h
    dsimp only at h
    split at h
    · split at h
      · injection h with h1
        rw [← h1]
        exact pair_depthLaw _ _ _
      · exact absurd h (by simp)
    · exact absurd h (by simp)

theorem find_dowhile_depthLaw (node tail : SB) (tcs : List SB) (g : DirectedGraph)
    (r : SB × Option SB) (h : find_dowhile node tail tcs g = some r) : depthLaw r.1 := by
  unfold find_dowhile at h
  split at h
  · split at h
    · dsimp only at h
      split at h
      · exact absurd h (by simp)
      · injection h with h1
        rw [← h1]
        exact triple_depthLaw _ _ _ _
    · injection h with h1
      rw [← h1]
      exact pair_depthLaw _ _ _
  · exact absurd h (by simp)

theorem chain2_init (t h : SB) :
    max t.get_depth h.get_depth = maxDepth [t, h] := by
  have h1 := maxDepth_cons t [h]
  have h2 := maxDepth_cons h ([] : List SB)
  have h0 : maxDepth ([] : List SB) = 0 := rfl
  omega

theorem chain3_init (e t n : SB) :
    max (max e.get_depth t.get_depth) n.get_depth = maxDepth [e, t, n] := by
  have h1 := maxDepth_cons e [t, n]
  have h2 := maxDepth_cons t [n]
  have h3 := maxDepth_cons n ([] : List SB)
  have h0 : maxDepth ([] : List SB) = 0 := rfl
  omega

/-- C8.  Every nested block constructed by the five reducers, and every
flatten-concatenated sequence, satisfies the depth law
`depth(b) = 1 + max(depth of children)`. -/
theorem C8_depth_law :
    (∀ (node : SB) (g : DirectedGraph) (pr : SB → List SB) (lp : SB → Bool)
      (ro : SB × Option SB), reduce_self_loop node g pr lp = some (some ro) →
        depthLaw ro.1) ∧
    (∀ (node : SB) (g : DirectedGraph) (pr : SB → List SB) (lp : SB → Bool)
      (r : SB × Option SB), reduce_sequence node g pr lp = some r → depthLaw r.1) ∧
    (∀ (node : SB) (g : DirectedGraph) (pr : SB → List SB) (lp : SB → Bool)
      (r : SB × Option SB), reduce_ifthen node g pr lp = some r → depthLaw r.1) ∧
    (∀ (node : SB) (g : DirectedGraph) (pr : SB → List SB) (lp : SB → Bool)
      (r : SB × Option SB), reduce_ifelse node g pr lp = some r → depthLaw r.1) ∧
    (∀ (node : SB) (g : DirectedGraph) (pr : SB → List SB) (lp : SB → Bool)
      (r : SB × Option SB), reduce_loop node g pr lp = some r → depthLaw r.1) ∧
    (∀ a b : SB, depthLaw (construct_and_flatten_sequence a b)) := by
  refine ⟨?_, ?_, ?_, ?_, ?_, fun a b => flatten_depthLaw a b⟩
  · intro node g pr lp ro h
    unfold reduce_self_loop at h
    split at h
    · dsimp only at h
      split at h
      · split at h
        · exact absurd h (by simp)
        · injection h with h1
          injection h1 with h2
          rw [← h2]
          exact single_depthLaw _ _
      · injection h with h1
        exact absurd h1 (by simp)
    · injection h with h1
      exact absurd h1 (by simp)
  · intro node g pr lp r h
    unfold reduce_sequence at h
    split at h
    · dsimp only at h
      split at h
      · injection h with h1
        rw [← h1]
        exact flatten_depthLaw _ _
      · exact absurd h (by simp)
    · exact absurd h (by simp)
  · intro node g pr lp r h
    simp only [reduce_ifthen] at h
    split at h
    · split at h
      · dsimp only at h
        injection h with h1
        rw [← h1]
        exact ascend_depthLaw g pr BlockType.IfThen _ _ _ (chain2_init _ _)
      · dsimp only at h
        split at h
        · injection h with h1
          rw [← h1]
          exact ascend_depthLaw g pr BlockType.IfThen _ _ _ (chain2_init _ _)
        · exact absurd h (by simp)
    · exact absurd h (by simp)
  · intro node g pr lp r h
    simp only [reduce_ifelse] at h
    split at h
    · split at h
      · exact absurd h (by simp)
      · rename_i pair
        split at h
        · split at h
          · injection h with h1
            rw [← h1]
            exact ascend_depthLaw g pr BlockType.IfThenElse _ _ _ (chain3_init _ _ _)
          · exact absurd h (by simp)
        · exact absurd h (by simp)
    · exact absurd h (by simp)
  · intro node g pr lp r h
    unfold reduce_loop at h
    split at h
    · split at h
      · exact find_while_depthLaw _ _ _ _ _ h
      · exact find_dowhile_depthLaw _ _ _ _ _ h
      · exact absurd h (by simp)
    · exact absurd h (by simp)

end CFSModel

namespace CFSModel

/-- Structure graph of the if-then seed, as the driver sees it. -/
def gIfThenG : DirectedGraph :=
  { root := some (StructureBlock.basic 0),
    adjacency := [
      (StructureBlock.basic 0, [StructureBlock.basic 1]),
      (StructureBlock.basic 1, [StructureBlock.basic 2, StructureBlock.basic 3]),
      (StructureBlock.basic 2, [StructureBlock.basic 3]),
      (StructureBlock.basic 3, [StructureBlock.basic 4]),
      (StructureBlock.basic 4, [])] }

/-- Structure graph of the while seed, as the driver sees it. -/
def gWhileG : DirectedGraph :=
  { root := some (StructureBlock.basic 0),
    adjacency := [
      (StructureBlock.basic 0, [StructureBlock.basic 1]),
      (StructureBlock.basic 1, [StructureBlock.basic 2, StructureBlock.basic 3]),
      (StructureBlock.basic 2, [StructureBlock.basic 1]),
      (StructureBlock.basic 3, [])] }

/-- Witness for C8: each reducer conjunct applied at a concrete reduction. -/
theorem C8_depth_law_witness :
    depthLaw slBlock ∧
    depthLaw (construct_and_flatten_sequence (StructureBlock.basic 0) (StructureBlock.basic 1)) ∧
    depthLaw (StructureBlock.nested BlockType.IfThen
      [StructureBlock.basic 1, StructureBlock.basic 2] 1) ∧
    depthLaw (StructureBlock.nested BlockType.IfThenElse
      [StructureBlock.basic 0, StructureBlock.basic 1, StructureBlock.basic 2] 1) ∧
    depthLaw (StructureBlock.nested BlockType.While
      [StructureBlock.basic 1, StructureBlock.basic 2] 1) := by
  refine ⟨?_, ?_, ?_, ?_, ?_⟩
  · exact C8_depth_law.1 (StructureBlock.basic 1) gSelfLoop
      (fun n => gSelfLoop.predecessors n) (fun _ => false)
      (slBlock, some (StructureBlock.basic 2)) (by decide)
  · exact C8_depth_law.2.2.2.2.2 (StructureBlock.basic 0) (StructureBlock.basic 1)
  · exact C8_depth_law.2.2.1 (StructureBlock.basic 1) gIfThenG
      (fun n => gIfThenG.predecessors n) (fun _ => false)
      (StructureBlock.nested BlockType.IfThen
        [StructureBlock.basic 1, StructureBlock.basic 2] 1, some (StructureBlock.basic 3))
      (by decide)
  · exact C8_depth_law.2.2.2.1 (StructureBlock.basic 0) gTwoPreds
      (fun n => gTwoPreds.predecessors n) (fun _ => false)
      (StructureBlock.nested BlockType.IfThenElse
        [StructureBlock.basic 0, StructureBlock.basic 1, StructureBlock.basic 2] 1,
        some (StructureBlock.basic 3))
      (by decide)
  · exact C8_depth_law.2.2.2.2.1 (StructureBlock.basic 1) gWhileG
      (fun n => gWhileG.predecessors n) (fun n => isLoopMap gWhileG.scc n)
      (StructureBlock.nested BlockType.While
        [StructureBlock.basic 1, StructureBlock.basic 2] 1, some (StructureBlock.basic 3))
      (by decide)

end CFSModel
